import Mathlib

/-!
Verification of the restaurant-selection logic of `src/pages/index.vue`
(random-restaurant-finder).

The source is a browser component; the logic verified here is the pure
selection pipeline (`getSearchRequests`, `isRelevantRestaurant`, the
dedup / quality-floor / sort / top-half / shuffle / take steps of
`getRandomRestaurants`), the marker reconciliation of `updateMapMarkers`
together with the marker click handlers, and the geolocation resolution
`getUserLocation` modelled as an event system.

Modelling conventions:
- JS numbers that hold ratings and coordinates are modelled as `ℚ`.
- Optional fields of provider records are `Option`.
- `Math.random()` draws that feed the random sort comparator
  `() => 0.5 - Math.random()` are modelled as a list of fair coins, one
  coin per comparator invocation: `true` means the comparator returned a
  negative number (probability 1/2, i.e. the draw was above 0.5), `false`
  a positive one (the draw is never exactly 0.5 with probability > 0).
- `Array.prototype.sort` is modelled as a stable insertion sort, which
  realises the ECMAScript observable behaviour (stable, sorted) for the
  consistent rating comparator; for the inconsistent random comparator it
  is the concrete small-array algorithm, one coin consumed per element
  comparison.
-/

/-- `Coordinate`: `{ lat, lng }` pair as used for positions. -/
structure Coordinate where
  lat : ℚ
  lng : ℚ
deriving Repr, DecidableEq

/-- The fixed fallback position (`defaultPosition` in the source):
lat 22.6247, lng 120.3578.  Written with `mkRat` so the value reduces in
the kernel; see `defaultPosition_eq` for the decimal form. -/
def defaultPosition : Coordinate := ⟨mkRat 226247 10000, mkRat 1203578 10000⟩

/-- `RawPlace`: a provider-returned place record.  Fields the component
reads; `name`, `rating`, `types`, `vicinity` may be absent. -/
structure RawPlace where
  place_id : String
  name : Option String
  rating : Option ℚ
  business_status : String
  types : Option (List String)
  vicinity : Option String
deriving Repr, DecidableEq

/-- `SearchRequest` fragment produced by `getSearchRequests` (location and
radius are merged in later by the caller). -/
structure SearchRequest where
  keyword : Option String
  type : String
  rankby : Option String
deriving Repr, DecidableEq

/-- JS `String.prototype.toLowerCase`. -/
def jsToLower (s : String) : String := ⟨s.data.map Char.toLower⟩

/-- JS `String.prototype.trim`: strips leading and trailing whitespace.
Defined by structural recursion over the character list so that it
evaluates in the kernel (`String.trim` of the core library does not). -/
def jsTrim (s : String) : String :=
  ⟨((s.data.dropWhile Char.isWhitespace).reverse.dropWhile Char.isWhitespace).reverse⟩

/-- Contiguous-sublist test: `sub` occurs inside `l`. -/
def listInfixOf {α : Type} [BEq α] (sub : List α) : List α → Bool
  | [] => sub.isEmpty
  | a :: t => sub.isPrefixOf (a :: t) || listInfixOf sub t

/-- JS `String.prototype.includes`: substring containment. -/
def jsIncludes (s sub : String) : Bool := listInfixOf sub.data s.data

/-- `getSearchRequests` (src/pages/index.vue lines 50-75): builds the list
of provider search-request fragments from the raw keyword text. -/
def getSearchRequests (keyword : String) : List SearchRequest :=
  if jsTrim keyword ≠ "" then
    if jsIncludes keyword "火鍋" then
      [⟨some "火鍋 餐廳", "restaurant", some "rating"⟩]
    else
      [⟨some (jsTrim keyword ++ " 餐廳"), "restaurant", some "rating"⟩]
  else
    [⟨none, "restaurant", none⟩]

/-- `isRelevantRestaurant` (lines 83-102): operational check, then (for a
non-empty keyword) case-insensitive substring match against name, any
category tag, or address, with missing fields contributing no match. -/
def isRelevantRestaurant (place : RawPlace) (keyword : String) : Bool :=
  if place.business_status ≠ "OPERATIONAL" then false
  else if keyword = "" then true
  else
    let lowerKeyword := jsToLower keyword
    (match place.name with
     | some n => jsIncludes (jsToLower n) lowerKeyword
     | none => false) ||
    (match place.types with
     | some ts => ts.any (fun t => jsIncludes (jsToLower t) lowerKeyword)
     | none => false) ||
    (match place.vicinity with
     | some v => jsIncludes (jsToLower v) lowerKeyword
     | none => false)

/-- One `Map.prototype.set` step of `new Map(pairs)`: an existing key keeps
its position but its value is overwritten; a new key is appended. -/
def mapSet (m : List (String × RawPlace)) (k : String) (v : RawPlace) :
    List (String × RawPlace) :=
  if k ∈ m.map Prod.fst then
    m.map (fun p => if p.1 = k then (k, v) else p)
  else
    m ++ [(k, v)]

/-- The keyed state built by `new Map(allResults.map(item => [item.place_id, item]))`
(line 382): pairs are inserted left to right. -/
def keyedFold (l : List RawPlace) : List (String × RawPlace) :=
  l.foldl (fun m item => mapSet m item.place_id item) []

/-- The dedup step (lines 381-382): `Array.from(new Map(...).values())`. -/
def dedupByPlaceId (l : List RawPlace) : List RawPlace :=
  (keyedFold l).map Prod.snd

/-- The last record of `l` carrying the given `place_id`, if any. -/
def lastOcc (l : List RawPlace) (id : String) : Option RawPlace :=
  (l.filter (fun p => p.place_id = id)).getLast?

/-- Dedup followed by the relevance filter (lines 381-383), producing
`uniqueResults`. -/
def dedupFiltered (allResults : List RawPlace) (keyword : String) : List RawPlace :=
  (dedupByPlaceId allResults).filter (fun p => isRelevantRestaurant p keyword)

/-- The quality floor `place.rating >= 3.5` (line 392).  In JS an absent
rating compares false against 3.5, so unrated places fail the floor.
The constant is written `mkRat 7 2` (= 3.5, see `qualityFloor_eq`) so it
reduces in the kernel. -/
def ratingFloor (p : RawPlace) : Bool :=
  match p.rating with
  | some r => decide (mkRat 7 2 ≤ r)
  | none => false

/-- Rating used by the sort comparator `(a, b) => b.rating - a.rating`
(line 393); every element reaching the sort has passed `ratingFloor`, so
the default value is never consulted there. -/
def ratingOf (p : RawPlace) : ℚ := p.rating.getD 0

/-- Insert into an already-sorted (descending) list: the element is placed
before the first strictly lower-rated entry, after equal-rated ones, which
makes the overall sort stable as `Array.prototype.sort` is. -/
def insertDesc (x : RawPlace) : List RawPlace → List RawPlace
  | [] => [x]
  | y :: ys => if ratingOf y < ratingOf x then x :: y :: ys else y :: insertDesc x ys

/-- `.sort((a, b) => b.rating - a.rating)` (line 393): stable descending
sort by rating, modelled as insertion sort. -/
def sortByRatingDesc (l : List RawPlace) : List RawPlace :=
  l.foldl (fun acc x => insertDesc x acc) []

/-- `sortedResults` (lines 391-393): quality floor then rating sort. -/
def sortedResults (uniq : List RawPlace) : List RawPlace :=
  sortByRatingDesc (uniq.filter ratingFloor)

/-- `topHalf` (line 396): `sortedResults.slice(0, Math.ceil(length / 2))`. -/
def topHalf (sorted : List RawPlace) : List RawPlace :=
  sorted.take ((sorted.length + 1) / 2)

/-- One insertion of the random-comparator sort
`topHalf.sort(() => 0.5 - Math.random())` (line 397).  Each comparison
consumes one coin; `true` places the inserted element before the compared
one (comparator negative).  Returns the new list and the unused coins;
with its coins exhausted the element sinks to the end (the comparator is
never actually starved, `Math.random` is inexhaustible). -/
def insertRand {α : Type} (x : α) : List α → List Bool → List α × List Bool
  | [], coins => ([x], coins)
  | y :: ys, [] => (y :: (insertRand x ys []).1, [])
  | y :: ys, c :: coins =>
    if c then (x :: y :: ys, coins)
    else
      let r := insertRand x ys coins
      (y :: r.1, r.2)

/-- The random-comparator sort of line 397, as insertion sort threading the
coin supply left to right. -/
def shuffleFold {α : Type} (l : List α) (coins : List Bool) : List α :=
  (l.foldl (fun (p : List α × List Bool) x =>
    insertRand x p.1 p.2) ([], coins)).1

/-- `shuffled.slice(0, numberOfRestaurants)` (lines 397-398): shuffle the
desirable pool and take the first `count` entries. -/
def selectStep (pool : List RawPlace) (coins : List Bool) (count : ℕ) : List RawPlace :=
  (shuffleFold pool coins).take count

/-- `getRandomRestaurants` (lines 343-426), restricted to its selection
logic: `allResults` is the concatenation of the provider sub-request
results, `prevSelected` the previously displayed `selectedRestaurants`.
When `uniqueResults` is empty the function returns early (line 387),
leaving the previous selection untouched; otherwise the selection replaces
it.  Detail/distance enrichment (lines 401-414) adds fields to each
selected place without changing which places are selected, so it is not
modelled.  The function never throws: every branch is total. -/
def getRandomRestaurants (keyword : String) (count : ℕ) (coins : List Bool)
    (allResults : List RawPlace) (prevSelected : List RawPlace) : List RawPlace :=
  if (dedupFiltered allResults keyword).isEmpty then prevSelected
  else selectStep (topHalf (sortedResults (dedupFiltered allResults keyword))) coins count

/-! ### Bridging lemmas for the kernel-friendly constants -/

/-- The quality-floor constant `mkRat 7 2` is the source literal `3.5`. -/
theorem qualityFloor_eq : mkRat 7 2 = (3.5 : ℚ) := by norm_num

/-- The default position is the source literal `(22.6247, 120.3578)`. -/
theorem defaultPosition_eq :
    defaultPosition = ⟨(22.6247 : ℚ), (120.3578 : ℚ)⟩ := by
  unfold defaultPosition
  norm_num

/-! ### Permutation facts about the insertion sorts -/

/-- The random-comparator insertion places the new element somewhere in the
list: the result is a permutation of consing it in front. -/
theorem insertRand_fst_perm {α : Type} (x : α) (l : List α) :
    ∀ coins : List Bool, (insertRand x l coins).1.Perm (x :: l) := by
  induction l with
  | nil => intro coins; simp [insertRand]
  | cons y ys ih =>
    intro coins
    cases coins with
    | nil =>
      simpa [insertRand] using ((ih []).cons y).trans (List.Perm.swap x y ys)
    | cons c cs =>
      cases c with
      | false =>
        simpa [insertRand] using ((ih cs).cons y).trans (List.Perm.swap x y ys)
      | true => simp [insertRand]

theorem shuffleFold_aux_perm {α : Type} (l : List α) :
    ∀ (acc : List α) (coins : List Bool),
      (l.foldl (fun (p : List α × List Bool) x => insertRand x p.1 p.2)
        (acc, coins)).1.Perm (l ++ acc) := by
  induction l with
  | nil => intro acc coins; simp
  | cons x xs ih =>
    intro acc coins
    simp only [List.foldl_cons]
    have h1 := ih (insertRand x acc coins).1 (insertRand x acc coins).2
    exact h1.trans
      ((List.Perm.append_left xs (insertRand_fst_perm x acc coins)).trans
        List.perm_middle)

/-- The shuffle step is some permutation of its input, for every outcome of
the random draws. -/
theorem shuffleFold_perm {α : Type} (l : List α) (coins : List Bool) :
    (shuffleFold l coins).Perm l := by
  simpa [shuffleFold] using shuffleFold_aux_perm l [] coins

theorem insertDesc_perm (x : RawPlace) (l : List RawPlace) :
    (insertDesc x l).Perm (x :: l) := by
  induction l with
  | nil => simp [insertDesc]
  | cons y ys ih =>
    unfold insertDesc
    split
    · exact List.Perm.refl _
    · exact (ih.cons y).trans (List.Perm.swap x y ys)

theorem sortByRatingDesc_aux_perm (l : List RawPlace) :
    ∀ acc : List RawPlace,
      (l.foldl (fun acc x => insertDesc x acc) acc).Perm (l ++ acc) := by
  induction l with
  | nil => intro acc; simp
  | cons x xs ih =>
    intro acc
    simp only [List.foldl_cons]
    exact (ih (insertDesc x acc)).trans
      ((List.Perm.append_left xs (insertDesc_perm x acc)).trans List.perm_middle)

/-- The rating sort is a permutation of its input. -/
theorem sortByRatingDesc_perm (l : List RawPlace) :
    (sortByRatingDesc l).Perm l := by
  simpa [sortByRatingDesc] using sortByRatingDesc_aux_perm l []

/-! ### Concrete data for scenarios and witnesses -/

/-- The ten operational places of the §8 boundary scenario, rated
[5, 4.8, 4.5, 4.2, 4.0, 3.8, 3.6, 3.4, 3.2, 3.0] (ratings written as
`mkRat n 10`, in tenths). -/
def scenarioPlaces : List RawPlace :=
  [⟨"id1", some "hot pot 1", some (mkRat 50 10), "OPERATIONAL", some ["restaurant"], some "address 1"⟩,
   ⟨"id2", some "hot pot 2", some (mkRat 48 10), "OPERATIONAL", some ["restaurant"], some "address 2"⟩,
   ⟨"id3", some "hot pot 3", some (mkRat 45 10), "OPERATIONAL", some ["restaurant"], some "address 3"⟩,
   ⟨"id4", some "hot pot 4", some (mkRat 42 10), "OPERATIONAL", some ["restaurant"], some "address 4"⟩,
   ⟨"id5", some "hot pot 5", some (mkRat 40 10), "OPERATIONAL", some ["restaurant"], some "address 5"⟩,
   ⟨"id6", some "hot pot 6", some (mkRat 38 10), "OPERATIONAL", some ["restaurant"], some "address 6"⟩,
   ⟨"id7", some "hot pot 7", some (mkRat 36 10), "OPERATIONAL", some ["restaurant"], some "address 7"⟩,
   ⟨"id8", some "hot pot 8", some (mkRat 34 10), "OPERATIONAL", some ["restaurant"], some "address 8"⟩,
   ⟨"id9", some "hot pot 9", some (mkRat 32 10), "OPERATIONAL", some ["restaurant"], some "address 9"⟩,
   ⟨"id10", some "hot pot 10", some (mkRat 30 10), "OPERATIONAL", some ["restaurant"], some "address 10"⟩]

/-- A permanently closed place, for the no-results scenario. -/
def closedPlace : RawPlace :=
  ⟨"idc", some "closed diner", some (mkRat 45 10), "CLOSED_PERMANENTLY", some ["restaurant"], some "addr c"⟩

/-- All coin streams of a given length, each equally likely under the fair
coin that models one `Math.random()` comparator call. -/
def allCoinLists : ℕ → List (List Bool)
  | 0 => [[]]
  | n + 1 => (allCoinLists n).flatMap (fun l => [false :: l, true :: l])

/-! ### C10: the request builder emits exactly one request -/

/-- C10: for every keyword string, `getSearchRequests` returns a list of
exactly one request: the unkeyworded restaurant-type request when the
trimmed keyword is empty, and otherwise a single rating-ranked keyworded
request.  The builder can therefore never produce two concurrent requests
whose results overlap. -/
theorem c10_builder_emits_one_request (keyword : String) :
    (getSearchRequests keyword).length = 1 ∧
    (jsTrim keyword = "" →
      getSearchRequests keyword = [⟨none, "restaurant", none⟩]) ∧
    (jsTrim keyword ≠ "" →
      ∃ k, getSearchRequests keyword = [⟨some k, "restaurant", some "rating"⟩]) := by
  unfold getSearchRequests
  by_cases h : jsTrim keyword = ""
  · simp [h]
  · by_cases hk : jsIncludes keyword "火鍋" <;> simp [h, hk]

/-- Witness for C10 at the concrete keyword "hot pot". -/
theorem c10_witness :
    jsTrim "hot pot" ≠ "" ∧
    (∃ k, getSearchRequests "hot pot" = [⟨some k, "restaurant", some "rating"⟩]) :=
  ⟨by decide, (c10_builder_emits_one_request "hot pot").2.2 (by decide)⟩

/-! ### C7: the relevance filter -/

/-- C7: `isRelevantRestaurant` rejects every non-OPERATIONAL place
regardless of keyword; accepts every operational place when the keyword is
empty; and for a non-empty keyword accepts an operational place iff the
lowercased keyword occurs in the name, in some category tag, or in the
address (the source's `||` evaluates these in that order and
short-circuits; semantically it is this disjunction, with a missing field
never matching). -/
theorem c7_relevance_filter_spec (place : RawPlace) (keyword : String) :
    (place.business_status ≠ "OPERATIONAL" →
      isRelevantRestaurant place keyword = false) ∧
    (place.business_status = "OPERATIONAL" → keyword = "" →
      isRelevantRestaurant place keyword = true) ∧
    (place.business_status = "OPERATIONAL" → keyword ≠ "" →
      (isRelevantRestaurant place keyword = true ↔
        ((∃ n, place.name = some n ∧
            jsIncludes (jsToLower n) (jsToLower keyword) = true) ∨
         (∃ ts, place.types = some ts ∧ ∃ t ∈ ts,
            jsIncludes (jsToLower t) (jsToLower keyword) = true) ∨
         (∃ v, place.vicinity = some v ∧
            jsIncludes (jsToLower v) (jsToLower keyword) = true)))) := by
  refine ⟨?_, ?_, ?_⟩
  · intro h
    simp [isRelevantRestaurant, h]
  · intro h hk
    simp [isRelevantRestaurant, h, hk]
  · intro h hk
    rcases place with ⟨pid, name, rating, bs, types, vic⟩
    obtain rfl : bs = "OPERATIONAL" := h
    cases name <;> cases types <;> cases vic <;>
      simp [isRelevantRestaurant, hk, List.any_eq_true, or_assoc]

/-- Witness for C7: an operational place whose name matches keyword "pot". -/
theorem c7_witness :
    ("pot" ≠ "" ∧
      (isRelevantRestaurant ⟨"id1", some "hot pot 1", some (mkRat 50 10),
          "OPERATIONAL", some ["restaurant"], some "address 1"⟩ "pot" = true ↔
        ((∃ n, (some "hot pot 1" : Option String) = some n ∧
            jsIncludes (jsToLower n) (jsToLower "pot") = true) ∨
         (∃ ts, (some ["restaurant"] : Option (List String)) = some ts ∧ ∃ t ∈ ts,
            jsIncludes (jsToLower t) (jsToLower "pot") = true) ∨
         (∃ v, (some "address 1" : Option String) = some v ∧
            jsIncludes (jsToLower v) (jsToLower "pot") = true)))) :=
  ⟨by decide,
    (c7_relevance_filter_spec ⟨"id1", some "hot pot 1", some (mkRat 50 10),
      "OPERATIONAL", some ["restaurant"], some "address 1"⟩ "pot").2.2 rfl (by decide)⟩

/-! ### C2: the shuffle step -/

/-- C2 counterexample: the random-comparator sort
`topHalf.sort(() => 0.5 - Math.random())` is not a uniform shuffle.  Each
comparator call is an independent fair coin (`Math.random() > 0.5`), so
the 8 coin streams of length 3 are equally likely and the shuffle of a
3-element pool uses at most 3 coins; yet the permutation `[2, 1, 0]` is
produced by 2 of the 8 streams while `[1, 2, 0]` is produced by only 1 —
the permutations are not equally likely (uniformity would require
probability 1/6 each, impossible over 8 equally likely streams). -/
theorem c2_counterexample :
    ((allCoinLists 3).countP (fun c => shuffleFold [0, 1, 2] c = [2, 1, 0])) = 2 ∧
    ((allCoinLists 3).countP (fun c => shuffleFold [0, 1, 2] c = [1, 2, 0])) = 1 ∧
    (allCoinLists 3).length = 8 := by decide

/-- C2 (amended): for every desirable pool, the shuffle step produces some
permutation of the pool — every element kept, none duplicated — though not
uniformly (the random-comparator sort is biased, see the counterexample);
the selection is the first `count` entries of that permutation. -/
theorem c2_amended_shuffle_perm (pool : List RawPlace) (coins : List Bool)
    (count : ℕ) :
    (shuffleFold pool coins).Perm pool ∧
    selectStep pool coins count = (shuffleFold pool coins).take count :=
  ⟨shuffleFold_perm pool coins, rfl⟩

/-! ### C5: sample size -/

/-- C5: for a desirable pool of size N and requested count K, if K ≤ N the
selection has exactly K entries, each drawn from the pool; if N < K the
selection is all N pool entries (as a permutation of the pool): no
padding, and no error since every branch is total. -/
theorem c5_sample_size (pool : List RawPlace) (coins : List Bool) (count : ℕ) :
    (count ≤ pool.length →
      (selectStep pool coins count).length = count ∧
      ∀ p ∈ selectStep pool coins count, p ∈ pool) ∧
    (pool.length < count → (selectStep pool coins count).Perm pool) := by
  have hperm := shuffleFold_perm pool coins
  have hlen : (shuffleFold pool coins).length = pool.length := hperm.length_eq
  constructor
  · intro hc
    constructor
    · show ((shuffleFold pool coins).take count).length = count
      rw [List.length_take, hlen]
      exact Nat.min_eq_left hc
    · intro p hp
      exact hperm.subset (List.take_subset _ _ hp)
  · intro hc
    have htake : (shuffleFold pool coins).take count = shuffleFold pool coins :=
      List.take_of_length_le (by omega)
    unfold selectStep
    rw [htake]
    exact hperm

/-- Witness for C5 at a concrete 2-element pool with count 1. -/
theorem c5_witness :
    1 ≤ (scenarioPlaces.take 2).length ∧
    (selectStep (scenarioPlaces.take 2) [] 1).length = 1 ∧
    (∀ p ∈ selectStep (scenarioPlaces.take 2) [] 1, p ∈ scenarioPlaces.take 2) :=
  ⟨by decide,
   ((c5_sample_size (scenarioPlaces.take 2) [] 1).1 (by decide)).1,
   ((c5_sample_size (scenarioPlaces.take 2) [] 1).1 (by decide)).2⟩

/-! ### C4: empty candidate set keeps the previous selection -/

/-- C4: whenever the deduplicated-and-filtered candidate set is empty, the
pipeline returns early and the previously displayed selection is left
unchanged; the early return is a plain value, never a thrown error. -/
theorem c4_empty_keeps_previous (keyword : String) (count : ℕ)
    (coins : List Bool) (allResults prevSelected : List RawPlace)
    (h : dedupFiltered allResults keyword = []) :
    getRandomRestaurants keyword count coins allResults prevSelected
      = prevSelected := by
  unfold getRandomRestaurants
  simp [h]

/-- Witness for C4: a provider result holding only a permanently closed
place yields an empty candidate set, and the previous selection survives. -/
theorem c4_witness :
    dedupFiltered [closedPlace] "" = [] ∧
    getRandomRestaurants "" 3 [] [closedPlace] scenarioPlaces
      = scenarioPlaces :=
  ⟨by decide,
   c4_empty_keeps_previous "" 3 [] [closedPlace] scenarioPlaces (by decide)⟩

/-! ### C6: the quality floor -/

/-- C6: every place in a selection produced from an empty previous
selection has a present rating of at least 3.5: a place whose rating is
below the floor or missing (in JS, `undefined >= 3.5` is false) is never
selected. -/
theorem c6_quality_floor (keyword : String) (count : ℕ) (coins : List Bool)
    (allResults : List RawPlace) (p : RawPlace)
    (hp : p ∈ getRandomRestaurants keyword count coins allResults []) :
    ∃ r, p.rating = some r ∧ (3.5 : ℚ) ≤ r := by
  unfold getRandomRestaurants at hp
  by_cases h : (dedupFiltered allResults keyword).isEmpty
  · rw [if_pos h] at hp
    exact absurd hp (List.not_mem_nil p)
  · rw [if_neg h] at hp
    have h1 : p ∈ topHalf (sortedResults (dedupFiltered allResults keyword)) :=
      (shuffleFold_perm _ coins).subset (List.take_subset _ _ hp)
    have h2 : p ∈ sortedResults (dedupFiltered allResults keyword) :=
      List.take_subset _ _ h1
    have h3 : p ∈ (dedupFiltered allResults keyword).filter ratingFloor :=
      (sortByRatingDesc_perm _).subset h2
    have h4 : ratingFloor p = true := (List.mem_filter.mp h3).2
    unfold ratingFloor at h4
    cases hr : p.rating with
    | none => rw [hr] at h4; exact absurd h4 (by simp)
    | some r =>
      rw [hr] at h4
      refine ⟨r, rfl, ?_⟩
      rw [← qualityFloor_eq]
      exact of_decide_eq_true h4

/-- Witness for C6: the top-rated scenario place is selected with an all
default coin stream, and its rating meets the floor. -/
theorem c6_witness :
    (scenarioPlaces.get ⟨0, by decide⟩ ∈
      getRandomRestaurants "" 1 [] scenarioPlaces []) ∧
    (∃ r, (scenarioPlaces.get ⟨0, by decide⟩).rating = some r ∧ (3.5 : ℚ) ≤ r) :=
  ⟨by decide, c6_quality_floor "" 1 [] scenarioPlaces _ (by decide)⟩

/-! ### C1: the §8 boundary scenario -/

/-- C1 counterexample: in the §8 scenario (the ten operational places
rated [5, 4.8, 4.5, 4.2, 4.0, 3.8, 3.6, 3.4, 3.2, 3.0], keyword "hot pot",
count 3) the 3.5 floor excludes only the bottom THREE places (3.4, 3.2 and
3.0; 3.6 and 3.8 both pass), leaving SEVEN, so the desirable pool is the
top `ceil(7/2) = 4` places, not the top 3 — and the selection of 3 out of
those 4 is not deterministic: the all-false coin stream returns the top
three places while an all-true stream returns places 4, 3, 2. -/
theorem c1_counterexample :
    (sortedResults (dedupFiltered scenarioPlaces "hot pot")).length = 7 ∧
    topHalf (sortedResults (dedupFiltered scenarioPlaces "hot pot"))
      = scenarioPlaces.take 4 ∧
    getRandomRestaurants "hot pot" 3 [] scenarioPlaces []
      = scenarioPlaces.take 3 ∧
    getRandomRestaurants "hot pot" 3 [true, true, true, true, true, true]
        scenarioPlaces []
      = [scenarioPlaces.get ⟨3, by decide⟩, scenarioPlaces.get ⟨2, by decide⟩,
         scenarioPlaces.get ⟨1, by decide⟩] ∧
    scenarioPlaces.get ⟨3, by decide⟩ ∉ scenarioPlaces.take 3 := by
  refine ⟨by decide, by decide, by decide, by decide, by decide⟩

/-- C1 (amended): in the §8 boundary scenario the pipeline excludes
exactly the bottom three places as below the 3.5 floor, takes the top half
(4 of the remaining 7, ceiling-rounded) as the desirable pool, and returns
exactly 3 places, each drawn from that top-4 pool; which 3 of the 4 appear
depends on the random shuffle, so the result is not deterministic. -/
theorem c1_amended_boundary_scenario (coins : List Bool) :
    (getRandomRestaurants "hot pot" 3 coins scenarioPlaces []).length = 3 ∧
    ∀ p ∈ getRandomRestaurants "hot pot" 3 coins scenarioPlaces [],
      p ∈ scenarioPlaces.take 4 := by
  have hne : (dedupFiltered scenarioPlaces "hot pot").isEmpty = false := by decide
  have hpool : topHalf (sortedResults (dedupFiltered scenarioPlaces "hot pot"))
      = scenarioPlaces.take 4 := by decide
  have hres : getRandomRestaurants "hot pot" 3 coins scenarioPlaces []
      = selectStep (scenarioPlaces.take 4) coins 3 := by
    unfold getRandomRestaurants
    rw [hpool] at *
    simp [hne, hpool]
  rw [hres]
  have hperm := shuffleFold_perm (scenarioPlaces.take 4) coins
  have hlen : (shuffleFold (scenarioPlaces.take 4) coins).length = 4 := by
    rw [hperm.length_eq]
    decide
  constructor
  · show ((shuffleFold (scenarioPlaces.take 4) coins).take 3).length = 3
    rw [List.length_take, hlen]
    decide
  · intro p hp
    exact hperm.subset (List.take_subset _ _ hp)

/-! ### C3: the dedup step -/

theorem mapSet_fst_of_mem (m : List (String × RawPlace)) (k : String)
    (v : RawPlace) (h : k ∈ m.map Prod.fst) :
    (mapSet m k v).map Prod.fst = m.map Prod.fst := by
  unfold mapSet
  rw [if_pos h, List.map_map]
  refine List.map_congr_left ?_
  intro p hp
  by_cases hpk : p.1 = k
  · simp [Function.comp, hpk]
  · simp [Function.comp, hpk]

theorem mapSet_fst_of_not_mem (m : List (String × RawPlace)) (k : String)
    (v : RawPlace) (h : k ∉ m.map Prod.fst) :
    (mapSet m k v).map Prod.fst = m.map Prod.fst ++ [k] := by
  unfold mapSet
  rw [if_neg h]
  simp

theorem mem_mapSet (m : List (String × RawPlace)) (k : String) (v : RawPlace)
    (kv : String × RawPlace) (h : kv ∈ mapSet m k v) :
    kv = (k, v) ∨ (kv ∈ m ∧ kv.1 ≠ k) := by
  unfold mapSet at h
  split at h
  · obtain ⟨p, hp, hpe⟩ := List.mem_map.mp h
    by_cases hpk : p.1 = k
    · left
      rw [← hpe]
      simp [hpk]
    · right
      rw [← hpe]
      simpa [hpk] using hp
  · rcases List.mem_append.mp h with hm | hm
    · right
      refine ⟨hm, fun heq => ?_⟩
      rename_i hnot
      exact hnot (heq ▸ List.mem_map_of_mem Prod.fst hm)
    · left
      simpa using hm

theorem lastOcc_concat (l : List RawPlace) (x : RawPlace) (id : String) :
    lastOcc (l ++ [x]) id = if x.place_id = id then some x else lastOcc l id := by
  unfold lastOcc
  rw [List.filter_append]
  by_cases h : x.place_id = id
  · simp [h]
  · simp [h]

/-- Invariant of the `Map` built from the processed prefix: keys are the
distinct ids in first-occurrence order, values the last-seen record for
their key. -/
def keyedInv (l : List RawPlace) (m : List (String × RawPlace)) : Prop :=
  ((m.map Prod.fst).Nodup) ∧
  (∀ k, k ∈ m.map Prod.fst ↔ k ∈ l.map RawPlace.place_id) ∧
  (∀ kv ∈ m, kv.1 = kv.2.place_id ∧ lastOcc l kv.1 = some kv.2)

theorem keyedFold_concat (l : List RawPlace) (x : RawPlace) :
    keyedFold (l ++ [x]) = mapSet (keyedFold l) x.place_id x := by
  unfold keyedFold
  rw [List.foldl_append]
  rfl

theorem keyedFold_inv (l : List RawPlace) : keyedInv l (keyedFold l) := by
  induction l using List.reverseRecOn with
  | nil =>
    refine ⟨?_, ?_, ?_⟩ <;> simp [keyedFold]
  | append_singleton l x ih =>
    obtain ⟨hnd, hkeys, helem⟩ := ih
    rw [keyedFold_concat]
    by_cases hmem : x.place_id ∈ (keyedFold l).map Prod.fst
    · refine ⟨?_, ?_, ?_⟩
      · rw [mapSet_fst_of_mem _ _ _ hmem]
        exact hnd
      · intro k
        rw [mapSet_fst_of_mem _ _ _ hmem, List.map_append]
        constructor
        · intro hk
          exact List.mem_append_left _ ((hkeys k).mp hk)
        · intro hk
          rcases List.mem_append.mp hk with h1 | h1
          · exact (hkeys k).mpr h1
          · have : k = x.place_id := by simpa using h1
            rw [this]
            exact hmem
      · intro kv hkv
        rcases mem_mapSet _ _ _ _ hkv with h1 | ⟨h1, h2⟩
        · subst h1
          refine ⟨rfl, ?_⟩
          rw [lastOcc_concat]
          simp
        · obtain ⟨he1, he2⟩ := helem kv h1
          refine ⟨he1, ?_⟩
          rw [lastOcc_concat, if_neg (fun hh => h2 hh.symm)]
          exact he2
    · refine ⟨?_, ?_, ?_⟩
      · rw [mapSet_fst_of_not_mem _ _ _ hmem, List.nodup_append]
        refine ⟨hnd, List.nodup_singleton _, ?_⟩
        intro a ha hax
        have : a = x.place_id := by simpa using hax
        exact hmem (this ▸ ha)
      · intro k
        rw [mapSet_fst_of_not_mem _ _ _ hmem, List.map_append]
        simp only [List.mem_append]
        constructor
        · rintro (h1 | h1)
          · exact Or.inl ((hkeys k).mp h1)
          · right
            simpa using h1
        · rintro (h1 | h1)
          · exact Or.inl ((hkeys k).mpr h1)
          · right
            simpa using h1
      · intro kv hkv
        rcases mem_mapSet _ _ _ _ hkv with h1 | ⟨h1, h2⟩
        · subst h1
          refine ⟨rfl, ?_⟩
          rw [lastOcc_concat]
          simp
        · obtain ⟨he1, he2⟩ := helem kv h1
          refine ⟨he1, ?_⟩
          rw [lastOcc_concat, if_neg (fun hh => h2 hh.symm)]
          exact he2

/-- C3: for every list of raw places the dedup step yields exactly one
entry per unique `place_id` (the retained id list is duplicate-free and
covers exactly the ids present in the input), and for each id the retained
record is the last-seen occurrence in concatenation order. -/
theorem c3_dedup_one_per_id_last_wins (l : List RawPlace) :
    ((dedupByPlaceId l).map RawPlace.place_id).Nodup ∧
    (∀ id, id ∈ (dedupByPlaceId l).map RawPlace.place_id ↔
      id ∈ l.map RawPlace.place_id) ∧
    (∀ p ∈ dedupByPlaceId l, lastOcc l p.place_id = some p) := by
  obtain ⟨hnd, hkeys, helem⟩ := keyedFold_inv l
  have hmap : (dedupByPlaceId l).map RawPlace.place_id
      = (keyedFold l).map Prod.fst := by
    unfold dedupByPlaceId
    rw [List.map_map]
    refine List.map_congr_left ?_
    intro kv hkv
    simpa [Function.comp] using ((helem kv hkv).1).symm
  refine ⟨?_, ?_, ?_⟩
  · rw [hmap]
    exact hnd
  · intro id
    rw [hmap]
    exact hkeys id
  · intro p hp
    obtain ⟨kv, hkv, rfl⟩ := List.mem_map.mp hp
    obtain ⟨h1, h2⟩ := helem kv hkv
    rw [← h1]
    exact h2

/-! ### C9: map markers and popovers -/

/-- A restaurant marker with the open/closed state of its info window
(`marker.infoWindow`, lines 445-486). -/
structure MapMarker where
  restaurant : RawPlace
  infoOpen : Bool
deriving Repr, DecidableEq

/-- `updateMapMarkers` (lines 433-487): all old markers are destroyed, one
marker is created per selected restaurant whose `business_status` is
OPERATIONAL (the defensive re-check of line 441), and each new marker's
info window is opened by default (line 486). -/
def updateMapMarkers (selected : List RawPlace) : List MapMarker :=
  (selected.filter (fun r => decide (r.business_status = "OPERATIONAL"))).map
    (fun r => ⟨r, true⟩)

/-- The click handler of marker `i` (lines 471-479): it closes every
marker's info window, then opens its own.  `j` is the index of the first
marker in the list being rebuilt. -/
def clickMarkerAux (i : ℕ) : List MapMarker → ℕ → List MapMarker
  | [], _ => []
  | m :: ms, j => ⟨m.restaurant, decide (j = i)⟩ :: clickMarkerAux i ms (j + 1)

/-- Effect of clicking marker `i` on the whole marker list. -/
def clickMarker (ms : List MapMarker) (i : ℕ) : List MapMarker :=
  clickMarkerAux i ms 0

/-- Number of open info windows. -/
def openCount (ms : List MapMarker) : ℕ :=
  (ms.filter (fun m => m.infoOpen)).length

theorem openCount_cons (m : MapMarker) (ms : List MapMarker) :
    openCount (m :: ms) = (if m.infoOpen then 1 else 0) + openCount ms := by
  unfold openCount
  rw [List.filter_cons]
  split <;> simp [Nat.add_comm]

theorem clickMarkerAux_past (i : ℕ) (ms : List MapMarker) :
    ∀ j, i < j → openCount (clickMarkerAux i ms j) = 0 := by
  induction ms with
  | nil => intro j _; simp [clickMarkerAux, openCount]
  | cons m ms ih =>
    intro j hj
    have hd : decide (j = i) = false := by
      simp
      omega
    rw [clickMarkerAux, openCount_cons]
    simp only [hd]
    rw [ih (j + 1) (by omega)]
    simp

theorem clickMarkerAux_le_one (i : ℕ) (ms : List MapMarker) :
    ∀ j, openCount (clickMarkerAux i ms j) ≤ 1 := by
  induction ms with
  | nil => intro j; simp [clickMarkerAux, openCount]
  | cons m ms ih =>
    intro j
    rw [clickMarkerAux, openCount_cons]
    by_cases hj : j = i
    · have hd : decide (j = i) = true := by simp [hj]
      simp only [hd]
      rw [clickMarkerAux_past i ms (j + 1) (by omega)]
      simp
    · have hd : decide (j = i) = false := by simp [hj]
      simp only [hd]
      simpa using ih (j + 1)

/-- C9 counterexample: immediately after marker reconciliation with two
operational selected restaurants, both popovers are open — `infoWindow.open`
is called for every new marker by default (line 486), so the "at most one
popover open at every point after reconciliation" claim fails. -/
theorem c9_counterexample :
    openCount (updateMapMarkers (scenarioPlaces.take 2)) = 2 := by decide

/-- C9 (amended): each marker's click handler closes every other marker's
popover before opening its own, so after any click event at most one
popover is open; but marker reconciliation itself opens every new marker's
popover by default, so right after `updateMapMarkers` every created marker
(one per operational restaurant) has its popover open, and only a
subsequent click collapses the state to a single open popover. -/
theorem c9_amended_markers (selected : List RawPlace) (ms : List MapMarker)
    (i : ℕ) :
    (∀ m ∈ updateMapMarkers selected, m.infoOpen = true) ∧
    openCount (clickMarker ms i) ≤ 1 := by
  constructor
  · intro m hm
    obtain ⟨r, _, hre⟩ := List.mem_map.mp hm
    rw [← hre]
  · exact clickMarkerAux_le_one i ms 0

/-! ### C8: geolocation resolution -/

/-- State touched by `getUserLocation` (lines 157-216): the position and
readiness flag, a counter of `updateCurrentLocationMarker` calls, a
counter of `resolve()` calls, and the status of the 10-second fallback
timer (line 168) and of the platform callback.  The executor never calls
`reject`, so no rejection is representable. -/
structure GeoState where
  currentPosition : Option Coordinate
  isLocationReady : Bool
  markerUpdates : ℕ
  resolveCalls : ℕ
  timerFired : Bool
  timerCleared : Bool
  callbackDone : Bool
deriving Repr, DecidableEq

/-- Events that can run after `getUserLocation` starts (geolocation
supported): the JS fallback timer fires, or the platform calls the success
or the error callback.  The platform calls at most one callback; the timer
fires at most once and not after `clearTimeout`. -/
inductive GeoEvent where
  | timerFire
  | geoSuccess (pos : Coordinate)
  | geoError
deriving Repr, DecidableEq

/-- State when `getUserLocation` starts. -/
def geoInit : GeoState := ⟨none, false, 0, 0, false, false, false⟩

/-- Which events may still occur in a given state.  The timer can fire
unless it already fired or a callback ran `clearTimeout` first; a platform
callback can arrive unless one already did — in particular it can still
arrive after the fallback timer has fired, because the timer's handler
(lines 168-174) does not cancel the platform request. -/
def geoEnabled (s : GeoState) : GeoEvent → Bool
  | .timerFire => !s.timerFired && !s.timerCleared
  | .geoSuccess _ => !s.callbackDone
  | .geoError => !s.callbackDone

/-- Handler bodies (lines 168-174, 177-187, 188-208): each sets the
position (actual one on success, default otherwise), sets the readiness
flag, updates the current-location marker and calls `resolve`; the
callbacks additionally `clearTimeout`. -/
def geoStep (s : GeoState) : GeoEvent → GeoState
  | .timerFire =>
    { s with currentPosition := some defaultPosition, isLocationReady := true,
             markerUpdates := s.markerUpdates + 1,
             resolveCalls := s.resolveCalls + 1, timerFired := true }
  | .geoSuccess pos =>
    { s with currentPosition := some pos, isLocationReady := true,
             markerUpdates := s.markerUpdates + 1,
             resolveCalls := s.resolveCalls + 1,
             timerCleared := true, callbackDone := true }
  | .geoError =>
    { s with currentPosition := some defaultPosition, isLocationReady := true,
             markerUpdates := s.markerUpdates + 1,
             resolveCalls := s.resolveCalls + 1,
             timerCleared := true, callbackDone := true }

/-- Run a sequence of events. -/
def geoRun (s : GeoState) : List GeoEvent → GeoState
  | [] => s
  | e :: es => geoRun (geoStep s e) es

/-- A trace is valid when every event is enabled when it occurs. -/
def geoValidFrom (s : GeoState) : List GeoEvent → Bool
  | [] => true
  | e :: es => geoEnabled s e && geoValidFrom (geoStep s e) es

/-- The unsupported-API path (lines 159-166): one synchronous update and
resolution, no timer, no callbacks. -/
def geoUnsupported : GeoState :=
  ⟨some defaultPosition, true, 1, 1, false, false, false⟩

/-- Counting invariant of the geolocation handlers: the marker is updated
exactly as often as `resolve` is called, each of the timer and the
platform callback contributes exactly one such call, the readiness flag is
set iff some handler has run, and a position is present iff some handler
has run. -/
def geoCountInv (s : GeoState) : Prop :=
  s.markerUpdates = s.resolveCalls ∧
  s.resolveCalls = s.timerFired.toNat + s.callbackDone.toNat ∧
  (s.isLocationReady = true ↔ 1 ≤ s.resolveCalls) ∧
  (s.currentPosition = none ↔ s.resolveCalls = 0)

theorem geoStep_inv (s : GeoState) (e : GeoEvent)
    (he : geoEnabled s e = true) (h : geoCountInv s) :
    geoCountInv (geoStep s e) := by
  obtain ⟨h1, h2, h3, h4⟩ := h
  cases e with
  | timerFire =>
    have ht : s.timerFired = false := by
      simp [geoEnabled] at he
      exact he.1
    refine ⟨by simp [geoStep, h1], ?_, by simp [geoStep], by simp [geoStep]⟩
    simp [geoStep, h2, ht]
    omega
  | geoSuccess pos =>
    have hc : s.callbackDone = false := by
      simpa [geoEnabled] using he
    refine ⟨by simp [geoStep, h1], ?_, by simp [geoStep], by simp [geoStep]⟩
    simp [geoStep, h2, hc]
  | geoError =>
    have hc : s.callbackDone = false := by
      simpa [geoEnabled] using he
    refine ⟨by simp [geoStep, h1], ?_, by simp [geoStep], by simp [geoStep]⟩
    simp [geoStep, h2, hc]

theorem geoRun_inv (tr : List GeoEvent) :
    ∀ s, geoValidFrom s tr = true → geoCountInv s → geoCountInv (geoRun s tr) := by
  induction tr with
  | nil => intro s _ h; exact h
  | cons e es ih =>
    intro s hv h
    rw [geoValidFrom, Bool.and_eq_true] at hv
    exact ih (geoStep s e) hv.2 (geoStep_inv s e hv.1 h)

theorem geoRun_position (tr : List GeoEvent) :
    ∀ s, (geoRun s tr).currentPosition = s.currentPosition ∨
      (geoRun s tr).currentPosition = some defaultPosition ∨
      ∃ p, GeoEvent.geoSuccess p ∈ tr ∧
        (geoRun s tr).currentPosition = some p := by
  induction tr with
  | nil => intro s; exact Or.inl rfl
  | cons e es ih =>
    intro s
    have hrun : geoRun s (e :: es) = geoRun (geoStep s e) es := rfl
    rcases ih (geoStep s e) with h | h | ⟨p, hp, hpe⟩
    · cases e with
      | timerFire =>
        right; left
        rw [hrun, h]
        rfl
      | geoSuccess p =>
        right; right
        exact ⟨p, List.mem_cons_self _ _, by rw [hrun, h]; rfl⟩
      | geoError =>
        right; left
        rw [hrun, h]
        rfl
    · right; left
      rw [hrun, h]
    · right; right
      exact ⟨p, List.mem_cons_of_mem _ hp, by rw [hrun, hpe]⟩

/-- C8 counterexample: the trace "fallback timer fires at 10s, then the
platform success callback arrives" is valid — the timer handler (lines
168-174) does not cancel the pending `getCurrentPosition` request, and the
callback's `clearTimeout` (line 178) is a no-op once the timer has fired —
and on it the readiness flag and the current-location marker are updated
TWICE during one resolution, refuting "exactly once, never more than
once". -/
theorem c8_counterexample :
    geoValidFrom geoInit
      [GeoEvent.timerFire, GeoEvent.geoSuccess ⟨mkRat 25 1, mkRat 121 1⟩]
      = true ∧
    (geoRun geoInit
      [GeoEvent.timerFire, GeoEvent.geoSuccess ⟨mkRat 25 1, mkRat 121 1⟩]).markerUpdates
      = 2 ∧
    (geoRun geoInit
      [GeoEvent.timerFire, GeoEvent.geoSuccess ⟨mkRat 25 1, mkRat 121 1⟩]).resolveCalls
      = 2 := by
  refine ⟨by decide, by decide, by decide⟩

/-- C8 (amended): on every valid event trace of `getUserLocation` in which
the promise has settled, the resolution never rejects (no handler can
reject: the model has no rejecting transition), the readiness flag is set,
the stored position is either the fixed default or the actual position
delivered by a success callback, and the flag/marker update runs at least
once and at most twice — twice exactly when both the fallback timer and a
late platform callback fire.  The unsupported-API path performs exactly
one update. -/
theorem c8_amended_geolocation (tr : List GeoEvent)
    (hv : geoValidFrom geoInit tr = true)
    (hres : 1 ≤ (geoRun geoInit tr).resolveCalls) :
    (geoRun geoInit tr).isLocationReady = true ∧
    (geoRun geoInit tr).markerUpdates = (geoRun geoInit tr).resolveCalls ∧
    1 ≤ (geoRun geoInit tr).markerUpdates ∧
    (geoRun geoInit tr).resolveCalls ≤ 2 ∧
    ((geoRun geoInit tr).currentPosition = some defaultPosition ∨
      ∃ p, GeoEvent.geoSuccess p ∈ tr ∧
        (geoRun geoInit tr).currentPosition = some p) ∧
    geoUnsupported.markerUpdates = 1 := by
  have hinv := geoRun_inv tr geoInit hv (by simp [geoCountInv, geoInit])
  obtain ⟨h1, h2, h3, h4⟩ := hinv
  have hup : (geoRun geoInit tr).timerFired.toNat ≤ 1 := by
    cases (geoRun geoInit tr).timerFired <;> simp
  have hcb : (geoRun geoInit tr).callbackDone.toNat ≤ 1 := by
    cases (geoRun geoInit tr).callbackDone <;> simp
  refine ⟨h3.mpr hres, h1, by omega, by omega, ?_, rfl⟩
  rcases geoRun_position tr geoInit with h | h | h
  · exfalso
    have : (geoRun geoInit tr).resolveCalls = 0 := h4.mp (by rw [h]; rfl)
    omega
  · exact Or.inl h
  · exact Or.inr h

/-- Witness for C8 (amended) at the timeout trace: the fallback timer
fires, the position becomes the default coordinate and the flag/marker
update runs once. -/
theorem c8_witness :
    geoValidFrom geoInit [GeoEvent.timerFire] = true ∧
    1 ≤ (geoRun geoInit [GeoEvent.timerFire]).resolveCalls ∧
    ((geoRun geoInit [GeoEvent.timerFire]).isLocationReady = true ∧
     (geoRun geoInit [GeoEvent.timerFire]).markerUpdates
       = (geoRun geoInit [GeoEvent.timerFire]).resolveCalls ∧
     1 ≤ (geoRun geoInit [GeoEvent.timerFire]).markerUpdates ∧
     (geoRun geoInit [GeoEvent.timerFire]).resolveCalls ≤ 2 ∧
     ((geoRun geoInit [GeoEvent.timerFire]).currentPosition
        = some defaultPosition ∨
      ∃ p, GeoEvent.geoSuccess p ∈ [GeoEvent.timerFire] ∧
        (geoRun geoInit [GeoEvent.timerFire]).currentPosition = some p) ∧
     geoUnsupported.markerUpdates = 1) :=
  ⟨by decide, by decide,
   c8_amended_geolocation [GeoEvent.timerFire] (by decide) (by decide)⟩
